import Mathlib

/-!
# Verification of the dnb_crawl extraction and reconciliation engine

Shallow embedding of the core logic of `src/main.py`:

* `num_months`, the month-offset arithmetic (line 59-60);
* the date-window resolution `list(range(start, stop, -1))` (lines 213-216);
* the per-account sweep loop of `extract` with its in-place list mutation
  during iteration (lines 231-253), and the filesystem reconciliation pass
  (lines 255-263);
* the filename patterns used by `extract` (line 212), `combine` (line 274)
  and `cleanup` (line 294), modelled at character level;
* `combine` (lines 267-287), `cleanup` (lines 289-300) and the configuration
  date parsing `datestr_to_str` (lines 50-57) together with the config load
  in `main` (lines 316-329).

Machine integers are modelled as `Int`/`Nat` (Python integers are unbounded,
so no wrap-around is needed).  Python's `\d` character class is modelled as
the ASCII digits `0`-`9` (the filenames produced by the remote service are
ASCII).  Fallible Python code (exceptions) is modelled with `Option`.
-/

/-- A month-granularity date: the `year`/`month` fields of a Python
`datetime.date` (the day is always 1 in this program). -/
structure MDate where
  year : Int
  month : Int
deriving DecidableEq, Repr

/-- Python's `datetime.date` constructor only accepts months 1..12. -/
def MDate.validMonth (d : MDate) : Prop := 1 ≤ d.month ∧ d.month ≤ 12

instance (d : MDate) : Decidable d.validMonth := by
  unfold MDate.validMonth; infer_instance

/-- Calendar order on month-granularity dates: `d` is the same month as or an
earlier month than `e`. -/
def MDate.calLE (d e : MDate) : Prop :=
  d.year < e.year ∨ (d.year = e.year ∧ d.month ≤ e.month)

instance (d e : MDate) : Decidable (d.calLE e) := by
  unfold MDate.calLE; infer_instance

/-- Strict calendar order: `d` is an earlier month than `e`. -/
def MDate.calLT (d e : MDate) : Prop :=
  d.year < e.year ∨ (d.year = e.year ∧ d.month < e.month)

instance (d e : MDate) : Decidable (d.calLT e) := by
  unfold MDate.calLT; infer_instance

/-- `num_months` (main.py line 59-60):
`(m1.year - m2.year) * 12 + m1.month - m2.month`. -/
def num_months (m1 m2 : MDate) : Int :=
  (m1.year - m2.year) * 12 + m1.month - m2.month

/-- Fuel-indexed embedding of Python's `range(a, b, -1)`: counts down from `a`
while `a > b`.  The fuel is only there to make the recursion structural; with
fuel at least `(a - b).toNat` it never runs out. -/
def pyRangeDownAux : Nat → Int → Int → List Int
  | 0, _, _ => []
  | n + 1, a, b => if a ≤ b then [] else a :: pyRangeDownAux n (a - 1) b

/-- Embedding of Python's `list(range(a, b, -1))`. -/
def pyRangeDown (a b : Int) : List Int :=
  pyRangeDownAux (a - b).toNat a b

/-- The Date-Window Resolver (main.py lines 214-216):
`months_ = list(range(num_months(today, start), num_months(today, stop), -1))`. -/
def resolveWindow (today start stop : MDate) : List Int :=
  pyRangeDown (num_months today start) (num_months today stop)

/-- The strictly descending sequence `a, a-1, …, a-n+1` of length `n`:
the sequence the spec says the Date-Window Resolver must produce. -/
def descSeq (a : Int) (n : Nat) : List Int :=
  (List.range n).map (fun k => a - Int.ofNat k)

theorem descSeq_succ (a : Int) (n : Nat) :
    descSeq a (n + 1) = a :: descSeq (a - 1) n := by
  unfold descSeq
  rw [List.range_succ_eq_map, List.map_cons, List.map_map]
  refine congrArg₂ _ (by simp) ?_
  refine List.map_congr_left ?_
  intro k _
  simp only [Function.comp_apply, Int.ofNat_eq_coe]
  omega

theorem pyRangeDownAux_closed (n : Nat) :
    ∀ a b : Int, (a - b).toNat ≤ n →
    pyRangeDownAux n a b = descSeq a (a - b).toNat := by
  induction n with
  | zero =>
    intro a b h
    have h0 : (a - b).toNat = 0 := Nat.le_zero.mp h
    simp [pyRangeDownAux, h0, descSeq]
  | succ n ih =>
    intro a b h
    by_cases hab : a ≤ b
    · have h0 : (a - b).toNat = 0 := by omega
      simp [pyRangeDownAux, hab, h0, descSeq]
    · have hlt : b < a := lt_of_not_ge hab
      have hn : (a - 1 - b).toNat ≤ n := by omega
      have hstep : (a - b).toNat = (a - 1 - b).toNat + 1 := by omega
      rw [pyRangeDownAux, if_neg hab, ih (a - 1) b hn, hstep, descSeq_succ]

theorem pyRangeDown_closed (a b : Int) :
    pyRangeDown a b = descSeq a (a - b).toNat :=
  pyRangeDownAux_closed (a - b).toNat a b le_rfl

theorem descSeq_length (a : Int) (n : Nat) : (descSeq a n).length = n := by
  unfold descSeq
  rw [List.length_map, List.length_range]

theorem pyRangeDown_length (a b : Int) :
    (pyRangeDown a b).length = (a - b).toNat := by
  rw [pyRangeDown_closed, descSeq_length]

theorem pyRangeDown_mem (a b x : Int) :
    x ∈ pyRangeDown a b ↔ b < x ∧ x ≤ a := by
  rw [pyRangeDown_closed]
  unfold descSeq
  simp only [List.mem_map, List.mem_range, Int.ofNat_eq_coe]
  constructor
  · rintro ⟨k, hk, rfl⟩
    omega
  · intro hx
    refine ⟨(a - x).toNat, by omega, by omega⟩

theorem pyRangeDown_pairwise (a b : Int) :
    (pyRangeDown a b).Pairwise (fun x y => y < x) := by
  rw [pyRangeDown_closed]
  unfold descSeq
  refine List.Pairwise.map _ ?_ (List.pairwise_lt_range _)
  intro k l hkl
  simp only [Int.ofNat_eq_coe]
  omega

theorem pyRangeDown_nodup (a b : Int) : (pyRangeDown a b).Nodup :=
  List.Pairwise.imp (fun h => ne_of_gt h) (pyRangeDown_pairwise a b)

theorem num_months_sub (today start stop : MDate)
    (hs : start.validMonth) (ht : stop.validMonth) (hle : start.calLE stop) :
    0 ≤ num_months today start - num_months today stop := by
  rcases hs with ⟨hs1, hs2⟩
  rcases ht with ⟨ht1, ht2⟩
  unfold num_months
  rcases hle with h | ⟨h1, h2⟩ <;> omega

/-- **C1**: for month-granularity dates with `start` calendar-≤ `stop`, the
Date-Window Resolver produces exactly the strictly descending, duplicate-free
sequence `offset(today,start), offset(today,start)-1, …, offset(today,stop)+1`,
empty when `start = stop`, of length `offset(start) - offset(stop)`. -/
theorem C1_date_window_resolver (today start stop : MDate)
    (hs : start.validMonth) (ht : stop.validMonth) (hle : start.calLE stop) :
    resolveWindow today start stop =
      descSeq (num_months today start)
        (num_months today start - num_months today stop).toNat
    ∧ (resolveWindow today start stop).Pairwise (fun x y => y < x)
    ∧ (resolveWindow today start stop).Nodup
    ∧ ((resolveWindow today start stop).length : Int)
        = num_months today start - num_months today stop
    ∧ (start = stop → resolveWindow today start stop = []) := by
  have hnn := num_months_sub today start stop hs ht hle
  unfold resolveWindow
  refine ⟨pyRangeDown_closed _ _, pyRangeDown_pairwise _ _, pyRangeDown_nodup _ _, ?_, ?_⟩
  · rw [pyRangeDown_length]
    omega
  · intro h
    subst h
    rw [pyRangeDown_closed]
    simp [descSeq]

theorem C1_date_window_resolver_witness :
    ((MDate.mk 2023 1).validMonth ∧ (MDate.mk 2024 3).validMonth
      ∧ (MDate.mk 2023 1).calLE (MDate.mk 2024 3))
    ∧ (resolveWindow ⟨2024, 3⟩ ⟨2023, 1⟩ ⟨2024, 3⟩ =
        descSeq (num_months ⟨2024, 3⟩ ⟨2023, 1⟩)
          (num_months ⟨2024, 3⟩ ⟨2023, 1⟩ - num_months ⟨2024, 3⟩ ⟨2024, 3⟩).toNat
      ∧ (resolveWindow ⟨2024, 3⟩ ⟨2023, 1⟩ ⟨2024, 3⟩).Pairwise (fun x y => y < x)
      ∧ (resolveWindow ⟨2024, 3⟩ ⟨2023, 1⟩ ⟨2024, 3⟩).Nodup
      ∧ ((resolveWindow ⟨2024, 3⟩ ⟨2023, 1⟩ ⟨2024, 3⟩).length : Int)
          = num_months ⟨2024, 3⟩ ⟨2023, 1⟩ - num_months ⟨2024, 3⟩ ⟨2024, 3⟩
      ∧ (MDate.mk 2023 1 = MDate.mk 2024 3 →
          resolveWindow ⟨2024, 3⟩ ⟨2023, 1⟩ ⟨2024, 3⟩ = [])) :=
  ⟨⟨by decide, by decide, by decide⟩,
    C1_date_window_resolver ⟨2024, 3⟩ ⟨2023, 1⟩ ⟨2024, 3⟩ (by decide) (by decide) (by decide)⟩

/-- Python's `\d` character class, on the ASCII digits. -/
def isDigitChar (c : Char) : Bool := ('0' ≤ c && c ≤ '9')

/-- Value of a string of ASCII digits, as Python `int` computes it. -/
def digitsToNat (cs : List Char) : Nat :=
  cs.foldl (fun acc c => acc * 10 + (c.toNat - 48)) 0

/-- Match exactly `n` decimal digits at the front of the input (`\d{n}`),
returning the digits and the rest. -/
def takeDigits : Nat → List Char → Option (List Char × List Char)
  | 0, cs => some ([], cs)
  | _ + 1, [] => none
  | n + 1, c :: cs =>
    if isDigitChar c then
      (takeDigits n cs).map (fun p => (c :: p.1, p.2))
    else none

/-- Match a literal character sequence at the front of the input. -/
def stripLit : List Char → List Char → Option (List Char)
  | [], cs => some cs
  | _ :: _, [] => none
  | l :: ls, c :: cs => if c = l then stripLit ls cs else none

/-- The separator `_-_` of the filename convention. -/
def sepChars : List Char := ['_', '-', '_']

/-- Match of the statement-filename pattern `(\d{11})_-_(\d{4}-\d{2}).*`
(main.py line 212) at the start of `cs`; every sub-pattern has a fixed width,
so matching at a position is deterministic, and the trailing `.*` accepts any
remainder.  Returns the two groups: the 11 account digits and the 7-character
`YYYY-MM` text. -/
def statementMatchAt (cs : List Char) : Option (List Char × List Char) :=
  match takeDigits 11 cs with
  | none => none
  | some (g1, r1) =>
    match stripLit sepChars r1 with
    | none => none
    | some r2 =>
      match takeDigits 4 r2 with
      | none => none
      | some (y, r3) =>
        match stripLit ['-'] r3 with
        | none => none
        | some r4 =>
          match takeDigits 2 r4 with
          | none => none
          | some (mo, _) => some (g1, y ++ '-' :: mo)

/-- `re.search` of the statement pattern on a filename stem: try each start
position left to right and return the leftmost match.  (The pattern needs at
least 21 characters, so it can never match the empty final position.) -/
def statementSearch : List Char → Option (List Char × List Char)
  | [] => none
  | c :: rest =>
    match statementMatchAt (c :: rest) with
    | some g => some g
    | none => statementSearch rest

/-- `re.search` of the Residual-Cleanup pattern
`(\d{11})_-_(\d{4}-\d{2})(\(\d+\))?.*` (main.py line 294), as a matching test
only (`cleanup` uses no groups).  The optional group and the trailing `.*`
accept any remainder — the optional group may always match empty — so a stem
matches exactly when the mandatory prefix `\d{11}_-_\d{4}-\d{2}` matches at
some position, i.e. exactly when the reconciliation pattern matches. -/
def cleanupMatch (cs : List Char) : Bool := (statementSearch cs).isSome

/-- `datetime.strptime(g, "%Y-%m")` on the 7-character group `YYYY-MM`
(main.py line 262): `%m` accepts only months 1..12 and `datetime` years start
at 1; a failure raises `ValueError`, modelled as `none`. -/
def parseYM (g2 : List Char) : Option MDate :=
  let y := digitsToNat (g2.take 4)
  let m := digitsToNat (g2.drop 5)
  if 1 ≤ y ∧ 1 ≤ m ∧ m ≤ 12 then some ⟨Int.ofNat y, Int.ofNat m⟩ else none

/-- `account.id.replace('.', '')` (main.py lines 227, 262, 274). -/
def normalizeId (cs : List Char) : List Char := cs.filter (fun c => decide (c ≠ '.'))

/-- The fixed suffix of the consolidation pattern (main.py line 274). -/
def combineSuffix : List Char := "_-_Kontoutskrift".data

/-- `fullmatch` of the consolidation pattern
`{account-digits}_-_\d{4}-\d{2}-\d{2}_-_Kontoutskrift` (main.py lines 274-278)
against a filename stem.  The normalized account id is interpolated literally
into the pattern (faithful whenever it contains no regex metacharacters, as
the digit-string account ids do). -/
def combineMatch (acct : List Char) (stem : List Char) : Bool :=
  match stripLit acct stem with
  | none => false
  | some r1 =>
    match stripLit sepChars r1 with
    | none => false
    | some r2 =>
      match takeDigits 4 r2 with
      | none => false
      | some (_, r3) =>
        match stripLit ['-'] r3 with
        | none => false
        | some r4 =>
          match takeDigits 2 r4 with
          | none => false
          | some (_, r5) =>
            match stripLit ['-'] r5 with
            | none => false
            | some r6 =>
              match takeDigits 2 r6 with
              | none => false
              | some (_, r7) =>
                match stripLit combineSuffix r7 with
                | none => false
                | some r8 => decide (r8 = [])

/-- Outcome of one month's automation attempt inside the sweep
(main.py lines 232-253): the download link was found and clicked, the explicit
no-results view appeared (`NoSuchElementException` on the link, after which
`months.remove(month)` runs), or a wait timed out (`TimeoutException`, which
leaves the pending list untouched). -/
inductive Outcome
  | download
  | noResults
  | timeout
deriving DecidableEq

/-- One sweep `for month in months: …` (main.py lines 232-253) with CPython's
live-list iterator semantics: the iterator keeps an index `i` and reads
`months[i]` while `i < len(months)`; `months.remove(month)` (on the no-results
outcome) deletes the first occurrence of `month` in place, shifting later
elements down — so the element that slides into index `i` is never visited.
Returns the visited months (ghost instrumentation; the source records no such
list) together with the final list.  The fuel only makes the recursion
structural: the index grows by one per step and the length never grows, so
`len(months)` steps always suffice. -/
def sweepAux (f : Int → Outcome) : Nat → List Int → Nat → List Int × List Int
  | 0, ms, _ => ([], ms)
  | fuel + 1, ms, i =>
    if h : i < ms.length then
      let m := ms[i]
      match f m with
      | Outcome.noResults =>
        let r := sweepAux f fuel (ms.erase m) (i + 1)
        (m :: r.1, r.2)
      | Outcome.download =>
        let r := sweepAux f fuel ms (i + 1)
        (m :: r.1, r.2)
      | Outcome.timeout =>
        let r := sweepAux f fuel ms (i + 1)
        (m :: r.1, r.2)
    else ([], ms)

/-- One full sweep over the pending months of one account. -/
def sweep (f : Int → Outcome) (ms : List Int) : List Int × List Int :=
  sweepAux f ms.length ms 0

/-- Processing of one downloaded file in the reconciliation pass of `extract`
(main.py lines 255-263): search the stem for the statement pattern; on a match
whose 11-digit group equals the normalized account id, parse the `YYYY-MM`
group (`strptime` may raise: `none`) and, when the resulting month offset is
in the pending list, remove its first occurrence (`months.remove(month)`). -/
def reconcileFile (today : MDate) (acctId : List Char) (ms : List Int)
    (stem : List Char) : Option (List Int) :=
  match statementSearch stem with
  | none => some ms
  | some (g1, g2) =>
    if g1 = normalizeId acctId then
      match parseYM g2 with
      | none => none
      | some d =>
        if num_months today d ∈ ms then some (ms.erase (num_months today d))
        else some ms
    else some ms

/-- The reconciliation pass over the download directory
(`for file in pathlib.Path(os.getcwd()).glob('*.pdf')`, main.py lines
255-263).  `dir` is the list of `*.pdf` stems in glob order. -/
def reconcile (today : MDate) (acctId : List Char) (dir : List (List Char))
    (ms : List Int) : Option (List Int) :=
  match dir with
  | [] => some ms
  | stem :: rest =>
    match reconcileFile today acctId ms stem with
    | none => none
    | some ms2 => reconcile today acctId rest ms2

/-- The per-account `while months:` loop of `extract` (main.py lines 231-263):
sweep all pending months, then reconcile against the download directory, and
repeat until the pending list is empty.  The source has no iteration cap; the
fuel argument is how many sweep-and-reconcile rounds we unroll, and `none`
means the loop was still running after that many rounds (or a reconciliation
raised). -/
def extractLoop (f : Int → Outcome) (today : MDate) (acctId : List Char)
    (dir : List (List Char)) : Nat → List Int → Option (List Int)
  | _, [] => some []
  | 0, _ :: _ => none
  | fuel + 1, m :: ms =>
    match reconcile today acctId dir (sweep f (m :: ms)).2 with
    | none => none
    | some ms2 => extractLoop f today acctId dir fuel ms2

/-- Code-point-lexicographic order on stems: `sorted(files)` in `combine`
(main.py line 282) sorts paths as strings; all matched stems live in the same
directory and share the `.pdf` extension, so stem order is path order. -/
def lexLeChars : List Char → List Char → Bool
  | [], _ => true
  | _ :: _, [] => false
  | c :: cs, d :: ds => if c = d then lexLeChars cs ds else decide (c < d)

def insertLex (s : List Char) : List (List Char) → List (List Char)
  | [] => [s]
  | t :: ts => if lexLeChars s t then s :: t :: ts else t :: insertLex s ts

def sortLex : List (List Char) → List (List Char)
  | [] => []
  | s :: ss => insertLex s (sortLex ss)

/-- Result of `combine`: the source stems appended to the merger, in merge
order, and the directory contents afterwards. -/
structure CombineResult where
  files : List (List Char)
  dirAfter : List (List Char)
deriving DecidableEq

/-- `combine` (main.py lines 267-287): select the stems fully matching the
day-precision pattern, merge them in sorted order, and write
`{basename}.pdf` where `basename` is the account name, or its id when the
name is absent.  `PdfFileMerger.write` runs unconditionally — with zero
appended sources it still writes an (empty) output document — and the body
never deletes any source file, so the directory afterwards is the old
contents plus the output stem. -/
def combine (acctId : List Char) (basename : List Char)
    (dir : List (List Char)) : CombineResult :=
  { files := sortLex (dir.filter (fun stem => combineMatch (normalizeId acctId) stem)),
    dirAfter := dir ++ [basename] }

/-- `cleanup` (main.py lines 289-300) with a fallible per-file delete:
`del stem = false` models `file.unlink()` raising (file locked, already
gone).  The loop body has no exception handling, so the first failing unlink
propagates out of `cleanup`: the result is the list of stems deleted before
the failure, paired with `true` when an exception escaped. -/
def cleanupRun (del : List Char → Bool) : List (List Char) → List (List Char) × Bool
  | [] => ([], false)
  | stem :: rest =>
    if cleanupMatch stem then
      if del stem then
        let r := cleanupRun del rest
        (stem :: r.1, r.2)
      else ([], true)
    else cleanupRun del rest

/-- Python `int(s)` on the shapes this program meets: an optional sign
followed by one or more ASCII digits; anything else raises `ValueError`
(`none`).  (Python additionally tolerates surrounding whitespace and interior
underscores; the configuration strings here never contain them.) -/
def parseIntPy (cs : List Char) : Option Int :=
  match cs with
  | '-' :: rest =>
    if rest ≠ [] ∧ rest.all isDigitChar then some (-(Int.ofNat (digitsToNat rest)))
    else none
  | '+' :: rest =>
    if rest ≠ [] ∧ rest.all isDigitChar then some (Int.ofNat (digitsToNat rest))
    else none
  | _ =>
    if cs ≠ [] ∧ cs.all isDigitChar then some (Int.ofNat (digitsToNat cs))
    else none

/-- `datestr_to_str` (main.py lines 50-57) composed with the validation of the
`datetime.date` constructor: `month = int(s[:2])`, `year = int(s[3:])` (the
character at index 2 is never inspected), and `date(year, month, 1)` accepts
only `1 ≤ month ≤ 12` and `1 ≤ year ≤ 9999`; any exception is `none`. -/
def datestr_to_str (cs : List Char) : Option MDate :=
  match parseIntPy (cs.take 2) with
  | none => none
  | some mo =>
    match parseIntPy (cs.drop 3) with
    | none => none
    | some y =>
      if 1 ≤ mo ∧ mo ≤ 12 ∧ 1 ≤ y ∧ y ≤ 9999 then some ⟨y, mo⟩ else none

/-- Loading one extraction window from the configuration (main.py lines
316-329): `dacite` applies `datestr_to_str` to both date fields; any
exception is caught in `main`, reported, and the program returns before any
browser session is created.  No relation between the two dates is checked. -/
def loadWindow (startStr stopStr : List Char) : Option (MDate × MDate) :=
  match datestr_to_str startStr with
  | none => none
  | some d1 =>
    match datestr_to_str stopStr with
    | none => none
    | some d2 => some (d1, d2)

theorem erase_eq_take_drop (ms : List Int) (i : Nat) (m : Int) (h : i < ms.length)
    (hm : ms[i] = m) (hnd : ms.Nodup) :
    ms.erase m = ms.take i ++ ms.drop (i + 1) := by
  have hsplit : ms.take i ++ m :: ms.drop (i + 1) = ms := by
    conv_rhs => rw [← List.take_append_drop i ms]
    rw [List.drop_eq_getElem_cons h, hm]
  have hnotmem : m ∉ ms.take i := by
    have h2 : (ms.take i ++ m :: ms.drop (i + 1)).Nodup := by rw [hsplit]; exact hnd
    exact fun hmem => (List.disjoint_of_nodup_append h2) hmem (List.mem_cons_self _ _)
  calc ms.erase m
      = (ms.take i ++ m :: ms.drop (i + 1)).erase m := by rw [hsplit]
    _ = ms.take i ++ (m :: ms.drop (i + 1)).erase m := List.erase_append_right _ hnotmem
    _ = ms.take i ++ ms.drop (i + 1) := by rw [List.erase_cons_head]

/-- Every month the sweep leaves in the list was in the list at sweep start:
removal is the only mutation. -/
theorem sweepAux_keep (f : Int → Outcome) :
    ∀ fuel ms i x, x ∈ ms → x ∉ (sweepAux f fuel ms i).1 →
      x ∈ (sweepAux f fuel ms i).2 := by
  intro fuel
  induction fuel with
  | zero => intro ms i x hx _; simpa [sweepAux] using hx
  | succ fuel ih =>
    intro ms i x hx hnv
    by_cases h : i < ms.length
    · simp only [sweepAux, dif_pos h] at hnv ⊢
      cases hfm : f ms[i] with
      | noResults =>
        simp only [hfm] at hnv ⊢
        have hxne : x ≠ ms[i] := by
          intro he
          exact hnv (by rw [he]; exact List.mem_cons_self _ _)
        have hx2 : x ∈ ms.erase ms[i] := (List.mem_erase_of_ne hxne).mpr hx
        exact ih _ _ x hx2 (fun hmem => hnv (List.mem_cons_of_mem _ hmem))
      | download =>
        simp only [hfm] at hnv ⊢
        exact ih _ _ x hx (fun hmem => hnv (List.mem_cons_of_mem _ hmem))
      | timeout =>
        simp only [hfm] at hnv ⊢
        exact ih _ _ x hx (fun hmem => hnv (List.mem_cons_of_mem _ hmem))
    · simp only [sweepAux, dif_neg h]
      exact hx

/-- The sweep's visited list only contains months at positions the iterator
has not yet passed, and visits no month twice. -/
theorem sweepAux_visited (f : Int → Outcome) :
    ∀ fuel ms i, ms.Nodup →
      (sweepAux f fuel ms i).1 ⊆ ms.drop i ∧ (sweepAux f fuel ms i).1.Nodup := by
  intro fuel
  induction fuel with
  | zero => intro ms i _; simp [sweepAux]
  | succ fuel ih =>
    intro ms i hnd
    by_cases h : i < ms.length
    · have hdropi : ms.drop i = ms[i] :: ms.drop (i + 1) := List.drop_eq_getElem_cons h
      have hndi : (ms.drop i).Nodup := (List.drop_sublist i ms).nodup hnd
      have hnot : ms[i] ∉ ms.drop (i + 1) := by
        rw [hdropi] at hndi
        exact (List.nodup_cons.mp hndi).1
      have hheadmem : ms[i] ∈ ms.drop i := by rw [hdropi]; exact List.mem_cons_self _ _
      have htailsub : ms.drop (i + 1) ⊆ ms.drop i := by
        rw [hdropi]; exact List.subset_cons_self _ _
      simp only [sweepAux, dif_pos h]
      cases hfm : f ms[i] with
      | noResults =>
        simp only [hfm]
        have hnd2 : (ms.erase ms[i]).Nodup := hnd.erase _
        obtain ⟨ihsub, ihnd⟩ := ih (ms.erase ms[i]) (i + 1) hnd2
        have hlen : (ms.take i).length = i := by
          rw [List.length_take]; omega
        have herase : ms.erase ms[i] = ms.take i ++ ms.drop (i + 1) :=
          erase_eq_take_drop ms i ms[i] h rfl hnd
        have hsub2 : (ms.erase ms[i]).drop (i + 1) ⊆ ms.drop (i + 1) := by
          have hdr := @List.drop_append _ (ms.take i) (ms.drop (i + 1)) 1
          rw [hlen] at hdr
          rw [herase, hdr]
          exact List.drop_subset _ _
        constructor
        · intro x hx
          rcases List.mem_cons.mp hx with he | hmem
          · rw [he]; exact hheadmem
          · exact htailsub (hsub2 (ihsub hmem))
        · refine List.nodup_cons.mpr ⟨?_, ihnd⟩
          intro hmem
          exact hnot (hsub2 (ihsub hmem))
      | download =>
        simp only [hfm]
        obtain ⟨ihsub, ihnd⟩ := ih ms (i + 1) hnd
        constructor
        · intro x hx
          rcases List.mem_cons.mp hx with he | hmem
          · rw [he]; exact hheadmem
          · exact htailsub (ihsub hmem)
        · exact List.nodup_cons.mpr ⟨fun hmem => hnot (ihsub hmem), ihnd⟩
      | timeout =>
        simp only [hfm]
        obtain ⟨ihsub, ihnd⟩ := ih ms (i + 1) hnd
        constructor
        · intro x hx
          rcases List.mem_cons.mp hx with he | hmem
          · rw [he]; exact hheadmem
          · exact htailsub (ihsub hmem)
        · exact List.nodup_cons.mpr ⟨fun hmem => hnot (ihsub hmem), ihnd⟩
    · simp [sweepAux, dif_neg h]

/-- The month-to-outcome environment of the C2 counterexample: month 3 gets an
explicit no-results answer, every other month offers a download link. -/
def c2Outcome : Int → Outcome :=
  fun m => if m = 3 then Outcome.noResults else Outcome.download

/-- **C2** (counterexample): with pending months `[3, 2, 1]` and a no-results
outcome for month 3, the sweep visits only `[3, 1]` — month 2, pending at
sweep start, is never visited in that sweep, because `months.remove(3)` shifts
it into the index the iterator has already passed.  The sweep is therefore not
an iteration over a fixed snapshot. -/
theorem C2_snapshot_iteration_counterexample :
    (2 : Int) ∈ ([3, 2, 1] : List Int)
    ∧ (sweep c2Outcome [3, 2, 1]).1 = [3, 1]
    ∧ (2 : Int) ∉ (sweep c2Outcome [3, 2, 1]).1
    ∧ (sweep c2Outcome [3, 2, 1]).2 = [2, 1] := by decide

/-- **C2** (amended): the orchestrator iterates the live pending list, not a
snapshot; a mid-sweep removal can make the iterator skip the next pending
offset within that sweep.  What does hold: on a duplicate-free pending list
every offset is visited at most once per sweep, and every offset pending at
sweep start that the sweep does not visit is still pending at sweep end (so
it is re-visited by a later sweep of the enclosing `while months:` loop,
rather than lost). -/
theorem C2_sweep_at_most_once_and_skipped_stay_pending
    (f : Int → Outcome) (ms : List Int) (hnd : ms.Nodup) :
    (sweep f ms).1.Nodup
    ∧ ∀ m ∈ ms, m ∉ (sweep f ms).1 → m ∈ (sweep f ms).2 := by
  constructor
  · exact (sweepAux_visited f ms.length ms 0 hnd).2
  · intro m hm hnv
    exact sweepAux_keep f ms.length ms 0 m hm hnv

theorem C2_sweep_at_most_once_and_skipped_stay_pending_witness :
    ([3, 2, 1] : List Int).Nodup
    ∧ ((sweep c2Outcome [3, 2, 1]).1.Nodup
       ∧ ∀ m ∈ ([3, 2, 1] : List Int), m ∉ (sweep c2Outcome [3, 2, 1]).1 →
          m ∈ (sweep c2Outcome [3, 2, 1]).2) :=
  ⟨by decide, C2_sweep_at_most_once_and_skipped_stay_pending c2Outcome [3, 2, 1] (by decide)⟩

/-- A sweep against an all-timeout environment removes nothing: every timeout
is swallowed (`except TimeoutException: pass`) and the pending list is left
untouched. -/
theorem sweepAux_timeout_fixed (f : Int → Outcome) (hf : ∀ m, f m = Outcome.timeout) :
    ∀ fuel ms i, (sweepAux f fuel ms i).2 = ms := by
  intro fuel
  induction fuel with
  | zero => intro ms i; simp [sweepAux]
  | succ fuel ih =>
    intro ms i
    by_cases h : i < ms.length
    · simp only [sweepAux, dif_pos h, hf]
      exact ih ms (i + 1)
    · simp [sweepAux, dif_neg h]

theorem sweep_timeout_fixed (f : Int → Outcome) (hf : ∀ m, f m = Outcome.timeout)
    (ms : List Int) : (sweep f ms).2 = ms :=
  sweepAux_timeout_fixed f hf ms.length ms 0

/-- A month whose attempt does not end in the explicit no-results signal
(in particular one that times out) is still pending at sweep end. -/
theorem sweepAux_not_noResults_kept (f : Int → Outcome) :
    ∀ fuel ms i x, x ∈ ms → f x ≠ Outcome.noResults →
      x ∈ (sweepAux f fuel ms i).2 := by
  intro fuel
  induction fuel with
  | zero => intro ms i x hx _; simpa [sweepAux] using hx
  | succ fuel ih =>
    intro ms i x hx hfx
    by_cases h : i < ms.length
    · simp only [sweepAux, dif_pos h]
      cases hfm : f ms[i] with
      | noResults =>
        have hxne : x ≠ ms[i] := fun he => hfx (by rw [he]; exact hfm)
        exact ih (ms.erase ms[i]) (i + 1) x ((List.mem_erase_of_ne hxne).mpr hx) hfx
      | download => exact ih ms (i + 1) x hx hfx
      | timeout => exact ih ms (i + 1) x hx hfx
    · simp only [sweepAux, dif_neg h]
      exact hx

/-- The environment of a remote UI that times out on every attempt. -/
def allTimeout : Int → Outcome := fun _ => Outcome.timeout

set_option maxRecDepth 8000

/-- **C3** (counterexample): against a UI that times out on every attempt and
a download directory in which no file ever appears, one sweep-and-reconcile
round maps the pending list `[1]` to itself, and after 100 rounds the
`while months:` loop of `extract` is still running — the source has no attempt
cap, so the orchestrator loops forever in this situation. -/
theorem C3_attempt_cap_counterexample :
    reconcile ⟨2024, 6⟩ ("999".data) [] (sweep allTimeout [1]).2 = some [1]
    ∧ extractLoop allTimeout ⟨2024, 6⟩ ("999".data) [] 100 [1] = none
    ∧ ([1] : List Int) ≠ [] := by decide

/-- **C3** (amended): a timeout on an attempt leaves that offset pending for
the next sweep — that half of the claim holds.  But the sweep-and-reconcile
loop has no attempt cap of any kind: against a UI that times out on every
attempt, with an empty download directory, every pending offset survives
every sweep unchanged, and the `while months:` loop is still running after
any finite number of rounds whenever the pending list is nonempty. -/
theorem C3_timeout_leaves_pending_and_no_cap
    (f : Int → Outcome) (today : MDate) (acctId : List Char)
    (hf : ∀ m, f m = Outcome.timeout) :
    (∀ ms : List Int, ∀ m ∈ ms, m ∈ (sweep f ms).2)
    ∧ ∀ (fuel : Nat) (ms : List Int), ms ≠ [] →
        extractLoop f today acctId [] fuel ms = none := by
  constructor
  · intro ms m hm
    exact sweepAux_not_noResults_kept f ms.length ms 0 m hm (by rw [hf]; intro hc; cases hc)
  · intro fuel
    induction fuel with
    | zero =>
      intro ms hne
      cases ms with
      | nil => exact absurd rfl hne
      | cons m rest => rfl
    | succ fuel ih =>
      intro ms hne
      cases ms with
      | nil => exact absurd rfl hne
      | cons m rest =>
        have hsw : (sweep f (m :: rest)).2 = m :: rest := sweep_timeout_fixed f hf (m :: rest)
        simp only [extractLoop, hsw, reconcile]
        exact ih (m :: rest) (List.cons_ne_nil m rest)

theorem C3_timeout_leaves_pending_and_no_cap_witness :
    (∀ m, allTimeout m = Outcome.timeout)
    ∧ ((2 : Int) ∈ ([2] : List Int) ∧ (2 : Int) ∈ (sweep allTimeout [2]).2)
    ∧ extractLoop allTimeout ⟨2024, 6⟩ ("11111111111".data) [] 100 [2] = none :=
  ⟨fun _ => rfl,
   ⟨by decide,
    (C3_timeout_leaves_pending_and_no_cap allTimeout ⟨2024, 6⟩ ("11111111111".data)
      (fun _ => rfl)).1 [2] 2 (by decide)⟩,
   (C3_timeout_leaves_pending_and_no_cap allTimeout ⟨2024, 6⟩ ("11111111111".data)
      (fun _ => rfl)).2 100 [2] (by decide)⟩


theorem takeDigits_sound :
    ∀ (n : Nat) (cs g r : List Char), takeDigits n cs = some (g, r) →
      cs = g ++ r ∧ g.length = n ∧ g.all isDigitChar = true := by
  intro n
  induction n with
  | zero =>
    intro cs g r h
    simp only [takeDigits, Option.some.injEq, Prod.mk.injEq] at h
    obtain ⟨rfl, rfl⟩ := h
    exact ⟨rfl, rfl, rfl⟩
  | succ n ih =>
    intro cs g r h
    cases cs with
    | nil => simp [takeDigits] at h
    | cons c cs =>
      simp only [takeDigits] at h
      by_cases hd : isDigitChar c
      · rw [if_pos hd] at h
        cases htd : takeDigits n cs with
        | none => rw [htd] at h; simp at h
        | some p =>
          obtain ⟨p1, p2⟩ := p
          rw [htd] at h
          simp only [Option.map_some', Option.some.injEq, Prod.mk.injEq] at h
          obtain ⟨hg, hr⟩ := h
          obtain ⟨hcs, hlen, hdig⟩ := ih cs p1 p2 htd
          subst hg
          subst hr
          refine ⟨by rw [hcs, List.cons_append], by rw [List.length_cons, hlen], ?_⟩
          simp only [List.all_cons, Bool.and_eq_true]
          exact ⟨hd, hdig⟩
      · rw [if_neg hd] at h
        cases h

theorem takeDigits_complete :
    ∀ (g r : List Char), g.all isDigitChar = true →
      takeDigits g.length (g ++ r) = some (g, r) := by
  intro g
  induction g with
  | nil => intro r _; rfl
  | cons c g ih =>
    intro r hall
    simp only [List.all_cons, Bool.and_eq_true] at hall
    rw [List.length_cons, List.cons_append]
    unfold takeDigits
    rw [if_pos hall.1, ih r hall.2]
    rfl

theorem stripLit_sound :
    ∀ (l cs r : List Char), stripLit l cs = some r → cs = l ++ r := by
  intro l
  induction l with
  | nil =>
    intro cs r h
    simp only [stripLit, Option.some.injEq] at h
    rw [h, List.nil_append]
  | cons x l ih =>
    intro cs r h
    cases cs with
    | nil => simp [stripLit] at h
    | cons c cs =>
      simp only [stripLit] at h
      by_cases he : c = x
      · rw [if_pos he] at h
        rw [List.cons_append, ← ih cs r h, he]
      · rw [if_neg he] at h
        cases h

theorem stripLit_complete : ∀ (l r : List Char), stripLit l (l ++ r) = some r := by
  intro l
  induction l with
  | nil => intro r; rfl
  | cons x l ih =>
    intro r
    simp only [List.cons_append, stripLit, if_pos rfl]
    exact ih r

/-- A stem of the statement-filename shape: 11 account digits, `_-_`,
`YYYY-MM`, then arbitrary trailing text `v`. -/
def statementStem (a y mo v : List Char) : List Char :=
  a ++ (sepChars ++ (y ++ ('-' :: (mo ++ v))))

theorem statementMatchAt_complete (a y mo v : List Char)
    (ha : a.length = 11) (had : a.all isDigitChar = true)
    (hy : y.length = 4) (hyd : y.all isDigitChar = true)
    (hm : mo.length = 2) (hmd : mo.all isDigitChar = true) :
    statementMatchAt (statementStem a y mo v) = some (a, y ++ ('-' :: mo)) := by
  have h1 : takeDigits 11 (statementStem a y mo v)
      = some (a, sepChars ++ (y ++ ('-' :: (mo ++ v)))) := by
    unfold statementStem
    rw [← ha]
    exact takeDigits_complete a _ had
  have h2 : stripLit sepChars (sepChars ++ (y ++ ('-' :: (mo ++ v))))
      = some (y ++ ('-' :: (mo ++ v))) := stripLit_complete sepChars _
  have h3 : takeDigits 4 (y ++ ('-' :: (mo ++ v))) = some (y, '-' :: (mo ++ v)) := by
    rw [← hy]
    exact takeDigits_complete y _ hyd
  have h4 : stripLit ['-'] ('-' :: (mo ++ v)) = some (mo ++ v) :=
    stripLit_complete ['-'] (mo ++ v)
  have h5 : takeDigits 2 (mo ++ v) = some (mo, v) := by
    rw [← hm]
    exact takeDigits_complete mo _ hmd
  simp only [statementMatchAt, h1, h2, h3, h4, h5]

theorem statementMatchAt_sound (cs : List Char) (g1 g2 : List Char)
    (h : statementMatchAt cs = some (g1, g2)) :
    ∃ y mo v, cs = statementStem g1 y mo v
      ∧ g2 = y ++ ('-' :: mo)
      ∧ g1.length = 11 ∧ g1.all isDigitChar = true
      ∧ y.length = 4 ∧ y.all isDigitChar = true
      ∧ mo.length = 2 ∧ mo.all isDigitChar = true := by
  unfold statementMatchAt at h
  split at h
  · exact Option.noConfusion h
  · rename_i a r1 h11
    split at h
    · exact Option.noConfusion h
    · rename_i r2 hsep
      split at h
      · exact Option.noConfusion h
      · rename_i y r3 h4
        split at h
        · exact Option.noConfusion h
        · rename_i r4 hdash
          split at h
          · exact Option.noConfusion h
          · rename_i mo v h2
            simp only [Option.some.injEq, Prod.mk.injEq] at h
            obtain ⟨hg1, hg2⟩ := h
            subst hg1
            obtain ⟨hcs, h11len, h11dig⟩ := takeDigits_sound 11 cs a r1 h11
            have hr1 : r1 = sepChars ++ r2 := stripLit_sound sepChars r1 r2 hsep
            obtain ⟨hr2, hylen, hydig⟩ := takeDigits_sound 4 r2 y r3 h4
            have hr3 : r3 = '-' :: r4 := by
              have hx := stripLit_sound ['-'] r3 r4 hdash
              rwa [List.singleton_append] at hx
            obtain ⟨hr4, hmlen, hmdig⟩ := takeDigits_sound 2 r4 mo v h2
            refine ⟨y, mo, v, ?_, hg2.symm, h11len, h11dig, hylen, hydig, hmlen, hmdig⟩
            rw [hcs, hr1, hr2, hr3, hr4]
            rfl

theorem statementSearch_of_matchAt (cs : List Char) (g : List Char × List Char)
    (h : statementMatchAt cs = some g) : statementSearch cs = some g := by
  cases cs with
  | nil =>
    rw [show statementMatchAt [] = none from rfl] at h
    exact Option.noConfusion h
  | cons c rest =>
    unfold statementSearch
    rw [h]

theorem statementSearch_none_step (c : Char) (rest : List Char)
    (h : statementMatchAt (c :: rest) = none) :
    statementSearch (c :: rest) = statementSearch rest := by
  conv_lhs => rw [statementSearch]
  rw [h]

theorem statementSearch_sound :
    ∀ (cs : List Char) (g : List Char × List Char), statementSearch cs = some g →
      ∃ u w, cs = u ++ w ∧ statementMatchAt w = some g := by
  intro cs
  induction cs with
  | nil =>
    intro g h
    exact Option.noConfusion h
  | cons c rest ih =>
    intro g h
    cases hm : statementMatchAt (c :: rest) with
    | some g2 =>
      rw [statementSearch_of_matchAt _ g2 hm] at h
      exact ⟨[], c :: rest, rfl, by rw [hm, h]⟩
    | none =>
      rw [statementSearch_none_step c rest hm] at h
      obtain ⟨u, w, hcs, hw⟩ := ih g h
      exact ⟨c :: u, w, by rw [List.cons_append, ← hcs], hw⟩

theorem statementSearch_append (u w : List Char)
    (hw : (statementMatchAt w).isSome = true) :
    (statementSearch (u ++ w)).isSome = true := by
  induction u with
  | nil =>
    obtain ⟨g, hg⟩ := Option.isSome_iff_exists.mp hw
    rw [List.nil_append, statementSearch_of_matchAt w g hg]
    rfl
  | cons c u ih =>
    rw [List.cons_append]
    cases hm : statementMatchAt (c :: (u ++ w)) with
    | some g => rw [statementSearch_of_matchAt _ g hm]; rfl
    | none => rw [statementSearch_none_step _ _ hm]; exact ih

theorem combineMatch_length (acct stem : List Char)
    (h : combineMatch acct stem = true) : stem.length = acct.length + 29 := by
  unfold combineMatch at h
  split at h
  · exact Bool.noConfusion h
  · rename_i r1 hs1
    split at h
    · exact Bool.noConfusion h
    · rename_i r2 hs2
      split at h
      · exact Bool.noConfusion h
      · rename_i y r3 ht1
        split at h
        · exact Bool.noConfusion h
        · rename_i r4 hs3
          split at h
          · exact Bool.noConfusion h
          · rename_i d2 r5 ht2
            split at h
            · exact Bool.noConfusion h
            · rename_i r6 hs4
              split at h
              · exact Bool.noConfusion h
              · rename_i f2 r7 ht3
                split at h
                · exact Bool.noConfusion h
                · rename_i r8 hs5
                  have hr8 : r8 = [] := of_decide_eq_true h
                  have e1 := stripLit_sound acct stem r1 hs1
                  have e2 := stripLit_sound sepChars r1 r2 hs2
                  obtain ⟨e3, hy4, _⟩ := takeDigits_sound 4 r2 y r3 ht1
                  have e4 := stripLit_sound ['-'] r3 r4 hs3
                  obtain ⟨e5, hd2, _⟩ := takeDigits_sound 2 r4 d2 r5 ht2
                  have e6 := stripLit_sound ['-'] r5 r6 hs4
                  obtain ⟨e7, hf2, _⟩ := takeDigits_sound 2 r6 f2 r7 ht3
                  have e8 := stripLit_sound combineSuffix r7 r8 hs5
                  subst hr8
                  rw [e1, e2, e3, e4, e5, e6, e7, e8]
                  simp only [List.length_append, List.length_cons, List.length_nil,
                    sepChars, combineSuffix, String.data, hy4, hd2, hf2]
                  try omega

theorem statementStem_length (a y mo v : List Char) :
    (statementStem a y mo v).length = a.length + y.length + mo.length + v.length + 4 := by
  simp only [statementStem, sepChars, List.length_append, List.length_cons,
    List.length_nil]
  try omega

/-- **C7** (counterexample): at the claim's own example stem `999_-_2024-05`
(a 3-digit account field), the Reconciler's pattern does not match at all —
the pending offset 1 for month 2024-05 (seen from 2024-06) stays pending —
and Residual Cleanup does not match it either, so it would never be deleted.
Only the consolidator part of the claim holds at this input: both patterns
demanding an 11-digit run reject it. -/
theorem C7_month_only_counterexample :
    statementSearch ("999_-_2024-05".data) = none
    ∧ cleanupMatch ("999_-_2024-05".data) = false
    ∧ num_months ⟨2024, 6⟩ ⟨2024, 5⟩ = 1
    ∧ reconcile ⟨2024, 6⟩ ("999".data) [("999_-_2024-05".data)] [1] = some [1] := by
  decide

/-- **C7** (amended): for a month-only stem whose account field is exactly 11
digits — `<digits11>_-_YYYY-MM`, no day, no suffix — the Reconciler's pattern
matches it with the account digits and the month as its groups, the
Consolidator's day-precision full-match pattern selects it for no account
whatsoever (a full match forces the stem to be 29 characters longer than the
account field, and this stem is only 21 characters), and the Residual-Cleanup
pattern matches it, so cleanup deletes it.  With fewer than 11 digits (such as
the spec's example `999_-_2024-05`) neither the Reconciler nor Residual
Cleanup matches the file. -/
theorem C7_month_only_file_patterns (a y mo : List Char)
    (ha : a.length = 11) (had : a.all isDigitChar = true)
    (hy : y.length = 4) (hyd : y.all isDigitChar = true)
    (hm : mo.length = 2) (hmd : mo.all isDigitChar = true) :
    statementSearch (statementStem a y mo []) = some (a, y ++ ('-' :: mo))
    ∧ (∀ acct : List Char, combineMatch acct (statementStem a y mo []) = false)
    ∧ cleanupMatch (statementStem a y mo []) = true := by
  have hmt := statementMatchAt_complete a y mo [] ha had hy hyd hm hmd
  refine ⟨statementSearch_of_matchAt _ _ hmt, ?_, ?_⟩
  · intro acct
    cases hcm : combineMatch acct (statementStem a y mo []) with
    | false => rfl
    | true =>
      have hlen := combineMatch_length acct _ hcm
      have hslen := statementStem_length a y mo []
      rw [ha, hy, hm] at hslen
      simp only [List.length_nil] at hslen
      omega
  · unfold cleanupMatch
    rw [statementSearch_of_matchAt _ _ hmt]
    rfl

theorem C7_month_only_file_patterns_witness :
    (("12345678901".data).length = 11 ∧ ("12345678901".data).all isDigitChar = true
      ∧ ("2024".data).length = 4 ∧ ("2024".data).all isDigitChar = true
      ∧ ("05".data).length = 2 ∧ ("05".data).all isDigitChar = true)
    ∧ statementSearch (statementStem ("12345678901".data) ("2024".data) ("05".data) [])
        = some ("12345678901".data, ("2024".data) ++ ('-' :: ("05".data)))
    ∧ combineMatch ("12345678901".data)
        (statementStem ("12345678901".data) ("2024".data) ("05".data) []) = false
    ∧ cleanupMatch (statementStem ("12345678901".data) ("2024".data) ("05".data) [])
        = true := by
  have h := C7_month_only_file_patterns ("12345678901".data) ("2024".data) ("05".data)
    (by decide) (by decide) (by decide) (by decide) (by decide) (by decide)
  exact ⟨⟨by decide, by decide, by decide, by decide, by decide, by decide⟩,
    h.1, h.2.1 ("12345678901".data), h.2.2⟩

/-- A successful statement-pattern search always returns an 11-digit first
group. -/
theorem statementSearch_group1 (cs g1 g2 : List Char)
    (h : statementSearch cs = some (g1, g2)) :
    g1.length = 11 ∧ g1.all isDigitChar = true := by
  obtain ⟨u, w, _, hw⟩ := statementSearch_sound cs (g1, g2) h
  obtain ⟨y, mo, v, _, _, h11, hdig, _⟩ := statementMatchAt_sound w g1 g2 hw
  exact ⟨h11, hdig⟩

/-- A file never reconciles against an account whose normalized id is not an
11-digit string: the pattern's first group always has exactly 11 digits. -/
theorem reconcileFile_wrong_account (today : MDate) (acctId : List Char)
    (hacct : ¬ ((normalizeId acctId).length = 11
      ∧ (normalizeId acctId).all isDigitChar = true))
    (ms : List Int) (stem : List Char) :
    reconcileFile today acctId ms stem = some ms := by
  cases hs : statementSearch stem with
  | none => unfold reconcileFile; rw [hs]
  | some g =>
    obtain ⟨g1, g2⟩ := g
    have hg := statementSearch_group1 stem g1 g2 hs
    have hne : ¬ (g1 = normalizeId acctId) := fun he => hacct (he ▸ hg)
    unfold reconcileFile
    simp only [hs]
    rw [if_neg hne]

/-- **C10**: the reconciliation and cleanup patterns require an exactly
11-digit account field.  (a) For an account whose id, after stripping `.`,
is not an 11-digit string, reconciliation never changes the pending list
(and never raises), over any directory; its offsets can therefore only leave
the pending set through an explicit no-results outcome.  (b) Residual Cleanup
matches a stem exactly when the stem contains, at some position, an 11-digit
run followed by `_-_`, four digits, `-`, and two digits; a stem with no such
decomposition is never deleted. -/
theorem C10_eleven_digit_account_field (today : MDate) :
    (∀ acctId : List Char,
        ¬ ((normalizeId acctId).length = 11
          ∧ (normalizeId acctId).all isDigitChar = true) →
        ∀ (dir : List (List Char)) (ms : List Int),
          reconcile today acctId dir ms = some ms)
    ∧ (∀ stem : List Char,
        cleanupMatch stem = true ↔
          ∃ u a y mo v, stem = u ++ statementStem a y mo v
            ∧ a.length = 11 ∧ a.all isDigitChar = true
            ∧ y.length = 4 ∧ y.all isDigitChar = true
            ∧ mo.length = 2 ∧ mo.all isDigitChar = true) := by
  constructor
  · intro acctId hacct dir
    induction dir with
    | nil => intro ms; rfl
    | cons stem rest ih =>
      intro ms
      unfold reconcile
      simp only [reconcileFile_wrong_account today acctId hacct ms stem]
      exact ih ms
  · intro stem
    constructor
    · intro h
      unfold cleanupMatch at h
      obtain ⟨g, hg⟩ := Option.isSome_iff_exists.mp h
      obtain ⟨gg1, gg2⟩ := g
      obtain ⟨u, w, hcs, hw⟩ := statementSearch_sound stem (gg1, gg2) hg
      obtain ⟨y, mo, v, hww, _, h11, hd, hy, hyd, hm, hmd⟩ :=
        statementMatchAt_sound w gg1 gg2 hw
      exact ⟨u, gg1, y, mo, v, by rw [hcs, hww], h11, hd, hy, hyd, hm, hmd⟩
    · rintro ⟨u, a, y, mo, v, hstem, ha, had, hy, hyd, hm, hmd⟩
      unfold cleanupMatch
      rw [hstem]
      refine statementSearch_append u _ ?_
      rw [statementMatchAt_complete a y mo v ha had hy hyd hm hmd]
      rfl

theorem C10_eleven_digit_account_field_witness :
    (¬ ((normalizeId ("999".data)).length = 11
        ∧ (normalizeId ("999".data)).all isDigitChar = true))
    ∧ reconcile ⟨2024, 6⟩ ("999".data)
        [("99999999999_-_2024-05_-_Kontoutskrift".data)] [1] = some [1]
    ∧ cleanupMatch ("xx12345678901_-_2024-05".data) = true := by
  refine ⟨by decide, ?_, ?_⟩
  · exact (C10_eleven_digit_account_field ⟨2024, 6⟩).1 ("999".data) (by decide) _ _
  · refine ((C10_eleven_digit_account_field ⟨2024, 6⟩).2
      ("xx12345678901_-_2024-05".data)).mpr ?_
    exact ⟨("xx".data), ("12345678901".data), ("2024".data), ("05".data), [],
      by decide, by decide, by decide, by decide, by decide, by decide, by decide⟩

theorem reconcileFile_some_sub (today : MDate) (acctId : List Char)
    (ms ms2 : List Int) (stem : List Char)
    (h : reconcileFile today acctId ms stem = some ms2) :
    ms2 ⊆ ms ∧ (ms.Nodup → ms2.Nodup) := by
  unfold reconcileFile at h
  cases hs : statementSearch stem with
  | none =>
    rw [hs] at h
    have he : ms = ms2 := Option.some.inj h
    subst he
    exact ⟨fun x hx => hx, fun hnd => hnd⟩
  | some g =>
    obtain ⟨g1, g2⟩ := g
    simp only [hs] at h
    by_cases hacc : g1 = normalizeId acctId
    · rw [if_pos hacc] at h
      cases hym : parseYM g2 with
      | none => simp only [hym] at h; exact Option.noConfusion h
      | some d =>
        simp only [hym] at h
        by_cases hin : num_months today d ∈ ms
        · rw [if_pos hin] at h
          have he : ms.erase (num_months today d) = ms2 := Option.some.inj h
          subst he
          exact ⟨fun x hx => List.mem_of_mem_erase hx, fun hnd => hnd.erase _⟩
        · rw [if_neg hin] at h
          have he : ms = ms2 := Option.some.inj h
          subst he
          exact ⟨fun x hx => hx, fun hnd => hnd⟩
    · rw [if_neg hacc] at h
      have he : ms = ms2 := Option.some.inj h
      subst he
      exact ⟨fun x hx => hx, fun hnd => hnd⟩

/-- Re-running the reconciliation of one file after it was already applied to
a duplicate-free pending list does nothing more: the file's month offset is no
longer pending. -/
theorem reconcileFile_second (today : MDate) (acctId : List Char)
    (ms ms2 : List Int) (stem : List Char) (hnd : ms.Nodup)
    (h : reconcileFile today acctId ms stem = some ms2) :
    ∀ r : List Int, r ⊆ ms2 → reconcileFile today acctId r stem = some r := by
  intro r hr
  unfold reconcileFile at h ⊢
  cases hs : statementSearch stem with
  | none => rfl
  | some g =>
    obtain ⟨g1, g2⟩ := g
    simp only [hs] at h ⊢
    by_cases hacc : g1 = normalizeId acctId
    · rw [if_pos hacc] at h ⊢
      cases hym : parseYM g2 with
      | none => simp only [hym] at h; exact Option.noConfusion h
      | some d =>
        simp only [hym] at h ⊢
        by_cases hin : num_months today d ∈ ms
        · rw [if_pos hin] at h
          have he : ms.erase (num_months today d) = ms2 := Option.some.inj h
          have hnm : num_months today d ∉ ms2 := by
            rw [← he]
            exact hnd.not_mem_erase
          have hnr : num_months today d ∉ r := fun hc => hnm (hr hc)
          rw [if_neg hnr]
        · rw [if_neg hin] at h
          have he : ms = ms2 := Option.some.inj h
          have hnr : num_months today d ∉ r := fun hc => hin (he ▸ hr hc)
          rw [if_neg hnr]
    · rw [if_neg hacc]

theorem reconcile_some_sub (today : MDate) (acctId : List Char) :
    ∀ (dir : List (List Char)) (ms r : List Int),
      reconcile today acctId dir ms = some r → r ⊆ ms ∧ (ms.Nodup → r.Nodup) := by
  intro dir
  induction dir with
  | nil =>
    intro ms r h
    have he : ms = r := Option.some.inj h
    subst he
    exact ⟨fun x hx => hx, fun hnd => hnd⟩
  | cons stem rest ih =>
    intro ms r h
    unfold reconcile at h
    cases hf : reconcileFile today acctId ms stem with
    | none => simp only [hf] at h; exact Option.noConfusion h
    | some ms2 =>
      simp only [hf] at h
      obtain ⟨hsub1, hnd1⟩ := reconcileFile_some_sub today acctId ms ms2 stem hf
      obtain ⟨hsub2, hnd2⟩ := ih ms2 r h
      exact ⟨fun x hx => hsub1 (hsub2 hx), fun hnd => hnd2 (hnd1 hnd)⟩

/-- **C6**: the Filesystem Reconciler is idempotent: over a fixed directory
listing and account, if a reconciliation pass over a duplicate-free pending
list produces `r`, a second pass over the same directory starting from `r`
produces `r` again.  (That reconciliation never creates, modifies or deletes
a file is structural: the pass — main.py lines 255-263 — only lists `*.pdf`
stems and matches their names, which is why its embedding `reconcile` takes
the directory as a value and returns only a new pending list.) -/
theorem C6_reconciliation_idempotent (today : MDate) (acctId : List Char) :
    ∀ (dir : List (List Char)) (ms r : List Int), ms.Nodup →
      reconcile today acctId dir ms = some r →
      reconcile today acctId dir r = some r := by
  intro dir
  induction dir with
  | nil =>
    intro ms r _ h
    have he : ms = r := Option.some.inj h
    subst he
    rfl
  | cons stem rest ih =>
    intro ms r hnd h
    unfold reconcile at h ⊢
    cases hf : reconcileFile today acctId ms stem with
    | none => simp only [hf] at h; exact Option.noConfusion h
    | some ms2 =>
      simp only [hf] at h
      obtain ⟨hsub, _⟩ := reconcile_some_sub today acctId rest ms2 r h
      have h2 : reconcileFile today acctId r stem = some r :=
        reconcileFile_second today acctId ms ms2 stem hnd hf r hsub
      simp only [h2]
      exact ih ms2 r ((reconcileFile_some_sub today acctId ms ms2 stem hf).2 hnd) h

theorem C6_reconciliation_idempotent_witness :
    ([1, 3] : List Int).Nodup
    ∧ reconcile ⟨2024, 6⟩ ("123.456.78901".data)
        [("12345678901_-_2024-05_-_Kontoutskrift".data), ("junk".data)] [1, 3]
        = some [3]
    ∧ reconcile ⟨2024, 6⟩ ("123.456.78901".data)
        [("12345678901_-_2024-05_-_Kontoutskrift".data), ("junk".data)] [3]
        = some [3] :=
  ⟨by decide, by decide,
    C6_reconciliation_idempotent ⟨2024, 6⟩ ("123.456.78901".data)
      [("12345678901_-_2024-05_-_Kontoutskrift".data), ("junk".data)] [1, 3] [3]
      (by decide) (by decide)⟩

/-- **C4**: contrary to `combine`'s own docstring — "Combines the downloaded
pdfs into one *and deletes the individual ones*" — the body of `combine`
(main.py lines 267-287) deletes nothing: it selects, merges and writes, and
the only change to the download directory is the new output file.  At the
concrete input below, the per-month source file it merged still fully matches
the day-precision consolidation pattern and is still present afterwards. -/
theorem C4_combine_deletes_no_source :
    (combine ("12345678901".data) ("out".data)
        [("12345678901_-_2024-05-01_-_Kontoutskrift".data)]).files
      = [("12345678901_-_2024-05-01_-_Kontoutskrift".data)]
    ∧ combineMatch (normalizeId ("12345678901".data))
        ("12345678901_-_2024-05-01_-_Kontoutskrift".data) = true
    ∧ ("12345678901_-_2024-05-01_-_Kontoutskrift".data)
        ∈ (combine ("12345678901".data) ("out".data)
            [("12345678901_-_2024-05-01_-_Kontoutskrift".data)]).dirAfter := by
  decide

/-- **C5** (counterexample): for an account with no file matching the
day-precision pattern, `combine` does not fail — the source has no
`MergeError` and no error path at all here — and it still writes an output
document built from zero sources (`PdfFileMerger.write` runs unconditionally),
leaving the rest of the directory unchanged. -/
theorem C5_merge_error_counterexample :
    (combine ("12345678901".data) ("Savings".data) [("unrelated".data)]).files = []
    ∧ (combine ("12345678901".data) ("Savings".data) [("unrelated".data)]).dirAfter
        = [("unrelated".data), ("Savings".data)] := by
  decide

/-- **C5** (amended): when no file in the download directory matches the
account's day-precision pattern, `combine` raises nothing and merges nothing:
it writes a zero-source output document named after the account and leaves
the directory otherwise unchanged.  Processing of the remaining accounts
continues only because no error is ever raised — not because one is caught
and reported per account. -/
theorem C5_zero_match_combine_writes_empty_output
    (acctId basename : List Char) (dir : List (List Char))
    (h : ∀ stem ∈ dir, combineMatch (normalizeId acctId) stem = false) :
    combine acctId basename dir = ⟨[], dir ++ [basename]⟩ := by
  unfold combine
  have hfil : dir.filter (fun stem => combineMatch (normalizeId acctId) stem) = [] := by
    refine List.filter_eq_nil_iff.mpr ?_
    intro a ha
    rw [h a ha]
    exact Bool.false_ne_true
  rw [hfil]
  rfl

theorem C5_zero_match_combine_writes_empty_output_witness :
    (∀ stem ∈ [("unrelated".data)],
        combineMatch (normalizeId ("12345678901".data)) stem = false)
    ∧ combine ("12345678901".data) ("Savings".data) [("unrelated".data)]
        = ⟨[], [("unrelated".data), ("Savings".data)]⟩ :=
  ⟨by decide,
    C5_zero_match_combine_writes_empty_output ("12345678901".data) ("Savings".data)
      [("unrelated".data)] (by decide)⟩

/-- The deletion environment of the C8 counterexample: unlinking the first
statement file raises (the file is locked or already gone); every other
unlink succeeds. -/
def c8Delete : List Char → Bool :=
  fun s => decide (s ≠ ("11111111111_-_2024-01".data))

/-- **C8** (counterexample): `cleanup` has no per-file exception handling.
With two matching files of which the first fails to unlink, the failure
escapes `cleanup` (second component `true`) and the second matching file is
not deleted — cleanup neither logs-and-skips nor continues. -/
theorem C8_cleanup_failure_counterexample :
    cleanupMatch ("22222222222_-_2024-02".data) = true
    ∧ cleanupRun c8Delete
        [("11111111111_-_2024-01".data), ("22222222222_-_2024-02".data)]
      = ([], true) := by
  decide

/-- **C8** (amended): the first failing unlink raises out of `cleanup`
immediately: the files deleted are exactly the matching ones strictly before
the failing file, the exception escapes, and files after the failing one are
never visited.  (The escaping exception is caught only by the run-level
handler in `main`, which aborts the run's normal flow.) -/
theorem C8_cleanup_first_failure_aborts (del : List Char → Bool)
    (d1 : List (List Char)) (s : List Char) (d2 : List (List Char))
    (hmatch : cleanupMatch s = true) (hfail : del s = false)
    (hok : ∀ t ∈ d1, del t = true) :
    cleanupRun del (d1 ++ s :: d2) = (d1.filter cleanupMatch, true) := by
  induction d1 with
  | nil =>
    simp only [List.nil_append, cleanupRun, hmatch, hfail, if_true, List.filter_nil]
    rfl
  | cons t d1 ih =>
    have hdt : del t = true := hok t (List.mem_cons_self _ _)
    have ihr := ih (fun x hx => hok x (List.mem_cons_of_mem _ hx))
    by_cases hmt : cleanupMatch t = true
    · simp only [List.cons_append, cleanupRun, List.append_eq]
      rw [if_pos hmt, if_pos hdt, ihr, List.filter_cons, if_pos hmt]
    · simp only [List.cons_append, cleanupRun, List.append_eq]
      rw [if_neg hmt, ihr, List.filter_cons, if_neg hmt]

theorem C8_cleanup_first_failure_aborts_witness :
    (cleanupMatch ("11111111111_-_2024-01".data) = true
      ∧ c8Delete ("11111111111_-_2024-01".data) = false
      ∧ ∀ t ∈ [("33333333333_-_2024-03".data)], c8Delete t = true)
    ∧ cleanupRun c8Delete
        ([("33333333333_-_2024-03".data)]
          ++ ("11111111111_-_2024-01".data) :: [("22222222222_-_2024-02".data)])
      = ([("33333333333_-_2024-03".data)], true) := by
  refine ⟨⟨by decide, by decide, by decide⟩, ?_⟩
  rw [C8_cleanup_first_failure_aborts c8Delete
    [("33333333333_-_2024-03".data)] ("11111111111_-_2024-01".data)
    [("22222222222_-_2024-02".data)] (by decide) (by decide) (by decide)]
  decide

/-- **C9** (counterexample): the window `("01/2022", "01/2023")` — exactly the
configuration the repository's `generate.py` emits, with `start-date` strictly
earlier than `stop-date` — is accepted by configuration loading without any
error, so no `ConfigurationError` is raised when `start-date < stop-date`. -/
theorem C9_ordering_check_counterexample :
    loadWindow ("01/2022".data) ("01/2023".data) = some (⟨2022, 1⟩, ⟨2023, 1⟩)
    ∧ (MDate.mk 2022 1).calLT (MDate.mk 2023 1) := by
  decide

/-- **C9** (amended): configuration loading fails exactly when a window date
is not parseable as a month-granularity `MM/YYYY` value (the failure is
caught in `main`, reported, and the program returns before any browser
session is created — main.py lines 316-334); there is no ordering check of
any kind: any two parseable dates are accepted in either calendar order. -/
theorem C9_config_failure_is_parse_failure_only :
    (∀ s t : List Char, datestr_to_str s = none → loadWindow s t = none)
    ∧ (∀ s t : List Char, datestr_to_str t = none → loadWindow s t = none)
    ∧ (∀ (s t : List Char) (d e : MDate),
        datestr_to_str s = some d → datestr_to_str t = some e →
        loadWindow s t = some (d, e)) := by
  refine ⟨?_, ?_, ?_⟩
  · intro s t h
    unfold loadWindow
    rw [h]
  · intro s t h
    unfold loadWindow
    cases hs : datestr_to_str s with
    | none => rfl
    | some d => simp only [h]
  · intro s t d e hs ht
    unfold loadWindow
    simp only [hs, ht]

theorem C9_config_failure_is_parse_failure_only_witness :
    (datestr_to_str ("13/2022".data) = none
      ∧ loadWindow ("13/2022".data) ("01/2023".data) = none)
    ∧ (datestr_to_str ("01/2022".data) = some ⟨2022, 1⟩
      ∧ datestr_to_str ("01/2023".data) = some ⟨2023, 1⟩
      ∧ loadWindow ("01/2022".data) ("01/2023".data) = some (⟨2022, 1⟩, ⟨2023, 1⟩)) :=
  ⟨⟨by decide,
    C9_config_failure_is_parse_failure_only.1 ("13/2022".data) ("01/2023".data)
      (by decide)⟩,
   ⟨by decide, by decide,
    C9_config_failure_is_parse_failure_only.2.2 ("01/2022".data) ("01/2023".data)
      ⟨2022, 1⟩ ⟨2023, 1⟩ (by decide) (by decide)⟩⟩
